import Mathlib

/-!
Verification development for the ll2go control-flow restructurer.

The Go sources are shallowly embedded: LLVM IR token streams become `Tok`
lists, Go AST nodes (`go/ast`) become the inductive types `GoExpr` / `GoStmt`,
LLVM terminator values become `Terminator`, and the per-function block map
(`map[string]BasicBlock`) becomes an association list `BbMap`.  Functions are
translated from `src/instruction.go`, `src/primitive.go` and the draft
`src/unnamed/part_002`; parts of the repository that are referenced from the
sources but missing from the snapshot (the four-result `getBrCond`, the
`expand` helper) are modelled from the specification and marked as such.
-/

set_option autoImplicit false

namespace LL2Go

/-- Token kinds of the LLVM IR assembly token stream
(`github.com/mewlang/llvm/asm/token`), restricted to the kinds the lifter
inspects in `src/instruction.go`. -/
inductive TokKind where
  | kwTrue
  | kwFalse
  | localVar
  | localID
  | int
  | typ
  | equal
  | other
  deriving DecidableEq, Repr

/-- One LLVM IR assembly token: a kind together with its literal value. -/
structure Tok where
  kind : TokKind
  val : String
  deriving DecidableEq, Repr

/-- Go tokens (`go/token`) used by the lifted statements. -/
inductive GoTok where
  | not
  | breakTok
  | define
  | assign
  | add
  | sub
  | mul
  | quo
  | rem
  | eql
  | neq
  | gtr
  | geq
  | lss
  | leq
  deriving DecidableEq, Repr

/-- Go expressions (`go/ast` expression nodes) produced by the lifter:
identifiers, integer basic literals (`ast.BasicLit` with kind `token.INT`),
binary expressions and unary expressions. -/
inductive GoExpr where
  | ident (name : String)
  | basicLit (value : String)
  | binaryExpr (x : GoExpr) (op : GoTok) (y : GoExpr)
  | unaryExpr (op : GoTok) (x : GoExpr)
  deriving DecidableEq, Repr

/-- Go statements (`go/ast` statement nodes) produced by the lifter and the
statement synthesizer.  `ast.BlockStmt` bodies are plain statement lists; the
optional else branch of an `ast.IfStmt` is an optional block. -/
inductive GoStmt where
  | assignStmt (lhs : List GoExpr) (tok : GoTok) (rhs : List GoExpr)
  | ifStmt (cond : GoExpr) (body : List GoStmt) (els : Option (List GoStmt))
  | forStmt (cond : Option GoExpr) (body : List GoStmt)
  | branchStmt (tok : GoTok)
  | returnStmt (results : List GoExpr)

/-- Terminator instruction of a basic block (`llvm.Value` in the sources).
`nil` models a nil `llvm.Value` (return statements are consumed during
lifting, leaving a nil terminator); `br` is a two-way conditional branch
carrying its condition token and the names of the true and false targets;
`other` stands for any other terminator value. -/
inductive Terminator where
  | nil
  | br (condTok : Tok) (targetTrue : String) (targetFalse : String)
  | other
  deriving DecidableEq, Repr

/-- Errors returned by the embedded functions.  Constructors correspond to
the `errutil.New` / `errutil.Newf` sites of the sources; `errutil.Err`
wrapping is modelled as the identity. -/
inductive Err where
  | noNodePair (sub : String)
  | noBasicBlock (name : String)
  | invalidTargetTrue (got expected1 expected2 : String)
  | invalidTargetFalse (got expected1 expected2 : String)
  | unsupportedTokenKind
  | invalidIntValue (v : String)
  | primNotSupported (subName : String)
  | operandTokenCount (n : Nat)
  | expectedCondBranch
  | noControlFlowPrimitive
  | invalidLastTerminator
  | noLastBasicBlock
  deriving DecidableEq, Repr

/-- A lifted basic block: the capability set (`Name`, `Stmts`, `Term`) of the
`BasicBlock` interface shared by raw blocks and synthesized primitives. -/
structure BasicBlock where
  name : String
  stmts : List GoStmt
  term : Terminator

/-- A control flow primitive conceptually represents a basic block
(`primitive` in `src/primitive.go`); it exposes the same capability set. -/
abbrev Primitive := BasicBlock

/-- Translation of `getIdent` (src/instruction.go:267): keyword and named
local tokens become identifiers verbatim, anonymous local IDs are prefixed
with an underscore, all other kinds fail. -/
def getIdent (tok : Tok) : Except Err GoExpr :=
  match tok.kind with
  | .kwTrue => .ok (GoExpr.ident tok.val)
  | .kwFalse => .ok (GoExpr.ident tok.val)
  | .localVar => .ok (GoExpr.ident tok.val)
  | .localID => .ok (GoExpr.ident ("_" ++ tok.val))
  | _ => .error .unsupportedTokenKind

/-- Translation of the condition-token decoding of `getBrCond`
(src/instruction.go:243-263): keyword/local tokens go through `getIdent`; an
integer literal `0`/`1` becomes the boolean identifier `false`/`true`; any
other kind fails. -/
def brCondExpr (tok : Tok) : Except Err GoExpr :=
  match tok.kind with
  | .kwTrue => getIdent tok
  | .kwFalse => getIdent tok
  | .localVar => getIdent tok
  | .localID => getIdent tok
  | .int =>
    match tok.val with
    | "0" => .ok (GoExpr.ident "false")
    | "1" => .ok (GoExpr.ident "true")
    | v => .error (.invalidIntValue v)
  | _ => .error .unsupportedTokenKind

/-- Modelled from the spec: the four-result `getBrCond` called by
`src/primitive.go` (`cond, targetTrue, targetFalse, err := getBrCond(...)`)
is missing from the snapshot; per section 4.1, given a two-way branch
terminator it returns the condition expression together with the true and
false target names, decoding the condition slot exactly as the one-result
`getBrCond` of src/instruction.go does. -/
def getBrCond (term : Terminator) : Except Err (GoExpr × String × String) :=
  match term with
  | .br condTok targetTrue targetFalse =>
    match brCondExpr condTok with
    | .error e => .error e
    | .ok cond => .ok (cond, targetTrue, targetFalse)
  | _ => .error .expectedCondBranch

/-- Translation of `parseOperand` (src/instruction.go:87-114).  An operand
value is represented by its token stream (the `getTokens` front-end call is
the identity of this embedding).  Exactly three tokens are required; the
value token (index 1) must be an integer literal, which becomes an integer
basic literal; every other token kind fails. -/
def parseOperand (tokens : List Tok) : Except Err GoExpr :=
  match tokens with
  | [_t0, val, _t2] =>
    match val.kind with
    | .int => .ok (GoExpr.basicLit val.val)
    | _ => .error .unsupportedTokenKind
  | _ => .error (.operandTokenCount tokens.length)

mutual

/-- Occurrence test of an identifier in a Go expression, used by the
expression expander's liveness check. -/
def exprUses (t : String) : GoExpr → Bool
  | .ident x => x = t
  | .basicLit _ => false
  | .binaryExpr x _ y => exprUses t x || exprUses t y
  | .unaryExpr _ x => exprUses t x

/-- Occurrence test of an identifier in a list of Go expressions. -/
def exprsUses (t : String) : List GoExpr → Bool
  | [] => false
  | e :: rest => exprUses t e || exprsUses t rest

/-- Occurrence test of an identifier in a Go statement. -/
def stmtUses (t : String) : GoStmt → Bool
  | .assignStmt lhs _ rhs => exprsUses t lhs || exprsUses t rhs
  | .ifStmt cond body els =>
    exprUses t cond || stmtsUses t body ||
      (match els with
       | some b => stmtsUses t b
       | none => false)
  | .forStmt cond body =>
    (match cond with
     | some c => exprUses t c
     | none => false) || stmtsUses t body
  | .branchStmt _ => false
  | .returnStmt results => exprsUses t results

/-- Occurrence test of an identifier in a list of Go statements. -/
def stmtsUses (t : String) : List GoStmt → Bool
  | [] => false
  | s :: rest => stmtUses t s || stmtsUses t rest

end

/-- Index and right-hand side of the last define-assignment `t := rhs`
(single left-hand side, single right-hand side) in a statement list. -/
def findLastDefine (stmts : List GoStmt) (t : String) : Option (Nat × GoExpr) :=
  (stmts.enum.filterMap fun p =>
    match p.2 with
    | GoStmt.assignStmt [GoExpr.ident x] GoTok.define [rhs] =>
      if x = t then some (p.1, rhs) else none
    | _ => none).getLast?

/-- Modelled from the spec: the `expand` helper called by
`createPreLoopPrim` in `src/primitive.go` is missing from the snapshot.
Per section 4.7, given a block and a condition expression that is an
identifier `t`, it finds the last define-assignment `t := rhs` in the
block's statements; when `t` is not used in any later statement, it returns
`rhs` and the block with the defining assignment removed, and otherwise
returns the condition and the block unchanged.  The `Except` wrapper mirrors
the Go call site's error result; the modelled function is total. -/
def expand (bb : BasicBlock) (cond : GoExpr) : Except Err (GoExpr × BasicBlock) :=
  match cond with
  | .ident t =>
    match findLastDefine bb.stmts t with
    | some (i, rhs) =>
      if stmtsUses t (bb.stmts.drop (i + 1)) then
        .ok (cond, bb)
      else
        .ok (rhs, { bb with stmts := bb.stmts.eraseIdx i })
    | none => .ok (cond, bb)
  | _ => .ok (cond, bb)

/-- First-match lookup in an association list keyed by strings, the
embedding of Go map reads (`m[k]` with the comma-ok form). -/
def assocLookup {β : Type} : List (String × β) → String → Option β
  | [], _ => none
  | (k, v) :: rest, key => if k = key then some v else assocLookup rest key

/-- The node-pair mapping of an identified subgraph (`m map[string]string`),
from sub node name to graph node name. -/
abbrev NodeMap := List (String × String)

/-- The per-function block map (`bbs map[string]BasicBlock`). -/
abbrev BbMap := List (String × BasicBlock)

/-- Translation of `createListPrim` (src/primitive.go:138-168). -/
def createListPrim (m : NodeMap) (bbs : BbMap) (newName : String) :
    Except Err Primitive :=
  match assocLookup m "A" with
  | none => .error (.noNodePair "A")
  | some nameA =>
  match assocLookup m "B" with
  | none => .error (.noNodePair "B")
  | some nameB =>
  match assocLookup bbs nameA with
  | none => .error (.noBasicBlock nameA)
  | some bbEntry =>
  match assocLookup bbs nameB with
  | none => .error (.noBasicBlock nameB)
  | some bbExit =>
  .ok { name := newName
        stmts := bbEntry.stmts ++ bbExit.stmts
        term := bbExit.term }

/-- Translation of `createIfPrim` (src/primitive.go:184-238): the condition
is decoded from the entry block's terminator (the decoded branch targets are
discarded), the if body is the statement list of the block matched to `B`,
and the primitive is `stmts(A) ++ [if cond then stmts(B)] ++ stmts(C)` with
the terminator of `C`. -/
def createIfPrim (m : NodeMap) (bbs : BbMap) (newName : String) :
    Except Err Primitive :=
  match assocLookup m "A" with
  | none => .error (.noNodePair "A")
  | some nameA =>
  match assocLookup m "B" with
  | none => .error (.noNodePair "B")
  | some nameB =>
  match assocLookup m "C" with
  | none => .error (.noNodePair "C")
  | some nameC =>
  match assocLookup bbs nameA with
  | none => .error (.noBasicBlock nameA)
  | some bbCond =>
  match assocLookup bbs nameB with
  | none => .error (.noBasicBlock nameB)
  | some bbBody =>
  match assocLookup bbs nameC with
  | none => .error (.noBasicBlock nameC)
  | some bbExit =>
  match getBrCond bbCond.term with
  | .error e => .error e
  | .ok (cond, _, _) =>
  .ok { name := newName
        stmts := bbCond.stmts ++ [GoStmt.ifStmt cond bbBody.stmts none] ++ bbExit.stmts
        term := bbExit.term }

/-- Translation of `createIfElsePrim` (src/primitive.go:256-336): the branch
targets decoded from the entry terminator are validated against the matched
body node names, then `B`/`C` are reassigned to the true/false targets and
the primitive is `stmts(A) ++ [if cond then stmts(true target) else
stmts(false target)] ++ stmts(D)` with the terminator of `D`. -/
def createIfElsePrim (m : NodeMap) (bbs : BbMap) (newName : String) :
    Except Err Primitive :=
  match assocLookup m "A" with
  | none => .error (.noNodePair "A")
  | some nameA =>
  match assocLookup m "B" with
  | none => .error (.noNodePair "B")
  | some nameB =>
  match assocLookup m "C" with
  | none => .error (.noNodePair "C")
  | some nameC =>
  match assocLookup m "D" with
  | none => .error (.noNodePair "D")
  | some nameD =>
  match assocLookup bbs nameA with
  | none => .error (.noBasicBlock nameA)
  | some bbCond =>
  match getBrCond bbCond.term with
  | .error e => .error e
  | .ok (cond, targetTrue, targetFalse) =>
  if targetTrue ≠ nameB ∧ targetTrue ≠ nameC then
    .error (.invalidTargetTrue targetTrue nameB nameC)
  else if targetFalse ≠ nameB ∧ targetFalse ≠ nameC then
    .error (.invalidTargetFalse targetFalse nameB nameC)
  else
  match assocLookup bbs targetTrue with
  | none => .error (.noBasicBlock targetTrue)
  | some bbBody1 =>
  match assocLookup bbs targetFalse with
  | none => .error (.noBasicBlock targetFalse)
  | some bbBody2 =>
  match assocLookup bbs nameD with
  | none => .error (.noBasicBlock nameD)
  | some bbExit =>
  .ok { name := newName
        stmts := bbCond.stmts ++ [GoStmt.ifStmt cond bbBody1.stmts (some bbBody2.stmts)] ++ bbExit.stmts
        term := bbExit.term }

/-- Translation of `createPreLoopPrim` (src/primitive.go:352-455): the
condition is decoded from the entry terminator and then expanded; when the
header still holds statements after expansion, a condition-less for loop is
emitted whose body is the header statements, a negated-condition break and
the loop body, otherwise a `for cond` loop; both are followed by the exit
statements and carry the exit terminator. -/
def createPreLoopPrim (m : NodeMap) (bbs : BbMap) (newName : String) :
    Except Err Primitive :=
  match assocLookup m "A" with
  | none => .error (.noNodePair "A")
  | some nameA =>
  match assocLookup m "B" with
  | none => .error (.noNodePair "B")
  | some nameB =>
  match assocLookup m "C" with
  | none => .error (.noNodePair "C")
  | some nameC =>
  match assocLookup bbs nameA with
  | none => .error (.noBasicBlock nameA)
  | some bbCond =>
  match assocLookup bbs nameB with
  | none => .error (.noBasicBlock nameB)
  | some bbBody =>
  match assocLookup bbs nameC with
  | none => .error (.noBasicBlock nameC)
  | some bbExit =>
  match getBrCond bbCond.term with
  | .error e => .error e
  | .ok (cond0, _, _) =>
  match expand bbCond cond0 with
  | .error e => .error e
  | .ok (cond, bbCond') =>
  if bbCond'.stmts.length ≠ 0 then
    .ok { name := newName
          stmts := [GoStmt.forStmt none
              (bbCond'.stmts
                ++ [GoStmt.ifStmt (GoExpr.unaryExpr GoTok.not cond)
                      [GoStmt.branchStmt GoTok.breakTok] none]
                ++ bbBody.stmts)]
            ++ bbExit.stmts
          term := bbExit.term }
  else
    .ok { name := newName
          stmts := [GoStmt.forStmt (some cond) bbBody.stmts] ++ bbExit.stmts
          term := bbExit.term }

/-- Translation of `createPostLoopPrim` (src/primitive.go:469-524): a
condition-less for loop holding the body statements followed by a
negated-condition break, then the exit statements, with the exit
terminator. -/
def createPostLoopPrim (m : NodeMap) (bbs : BbMap) (newName : String) :
    Except Err Primitive :=
  match assocLookup m "A" with
  | none => .error (.noNodePair "A")
  | some nameA =>
  match assocLookup m "B" with
  | none => .error (.noNodePair "B")
  | some nameB =>
  match assocLookup bbs nameA with
  | none => .error (.noBasicBlock nameA)
  | some bbBody =>
  match assocLookup bbs nameB with
  | none => .error (.noBasicBlock nameB)
  | some bbExit =>
  match getBrCond bbBody.term with
  | .error e => .error e
  | .ok (cond, _, _) =>
  .ok { name := newName
        stmts := [GoStmt.forStmt none
            (bbBody.stmts
              ++ [GoStmt.ifStmt (GoExpr.unaryExpr GoTok.not cond)
                    [GoStmt.branchStmt GoTok.breakTok] none])]
          ++ bbExit.stmts
        term := bbExit.term }

/-- Translation of `createPrim` (src/primitive.go:107-124): dispatch on the
identified subgraph name; `if_return` is handled by `createIfPrim`. -/
def createPrim (subName : String) (m : NodeMap) (bbs : BbMap) (newName : String) :
    Except Err Primitive :=
  match subName with
  | "if" => createIfPrim m bbs newName
  | "if_else" => createIfElsePrim m bbs newName
  | "if_return" => createIfPrim m bbs newName
  | "list" => createListPrim m bbs newName
  | "post_loop" => createPostLoopPrim m bbs newName
  | "pre_loop" => createPreLoopPrim m bbs newName
  | _ => .error (.primNotSupported subName)

/-- Deletion from the block map (`delete(bbs, gname)`). -/
def eraseBB (bbs : BbMap) (key : String) : BbMap :=
  bbs.filter fun p => p.1 ≠ key

/-- Update of the block map (`bbs[name] = bb`): the entry under `name` is
replaced. -/
def insertBB (bbs : BbMap) (key : String) (bb : BasicBlock) : BbMap :=
  (key, bb) :: eraseBB bbs key

/-- Key set of the block map. -/
def bbKeys (bbs : BbMap) : List String :=
  bbs.map Prod.fst

/-- Translation of the member-collection loop shared by `restructure`
(src/primitive.go:68-76) and `locatePrim` (src/unnamed/part_002:437-446):
for each matched graph node name, the basic block is looked up, moved into
the primitive's own map and deleted from the function's map; a missing name
is an error.  The function returns the collected map (or the error) together
with the function map as mutated so far. -/
def collectDelete : List String → BbMap → BbMap → Except Err BbMap × BbMap
  | [], primBBs, bbs => (.ok primBBs, bbs)
  | gname :: rest, primBBs, bbs =>
    match assocLookup bbs gname with
    | none => (.error (.noBasicBlock gname), bbs)
    | some bb => collectDelete rest (insertBB primBBs gname bb) (eraseBB bbs gname)

/-- One identified high-level primitive (`xprimitive.Primitive` of
decomp.org/x/graphs/primitive): the subgraph name, the node mapping and the
name of the merged node. -/
structure HPrim where
  prim : String
  nodes : NodeMap
  node : String

/-- Translation of `restructure` (src/primitive.go:61-102): for each
identified primitive, the member blocks are collected and deleted from the
block map, the primitive is synthesized and installed under its name; on any
error the error is returned with the block map in its mutated state (the Go
function mutates the caller's map in place, which the second component
models).  Afterwards the first remaining block must have a nil terminator
and yields the function body. -/
def restructure (hprims : List HPrim) (bbs : BbMap) :
    Except Err (List GoStmt) × BbMap :=
  match hprims with
  | [] =>
    match bbs with
    | [] => (.error .noLastBasicBlock, bbs)
    | (_, bb) :: _ =>
      if bb.term ≠ Terminator.nil then
        (.error .invalidLastTerminator, bbs)
      else
        (.ok bb.stmts, bbs)
  | hp :: rest =>
    match collectDelete (hp.nodes.map Prod.snd) [] bbs with
    | (.error e, bbs') => (.error e, bbs')
    | (.ok primBBs, bbs') =>
      match createPrim hp.prim hp.nodes primBBs hp.node with
      | .error e => (.error e, bbs')
      | .ok prim => restructure rest (insertBB bbs' prim.name prim)

/-- Translation of the draft `createPreLoopPrim`
(src/unnamed/part_002:702-805): identical to the current version except that
the break inside the statement-carrying header variant is guarded by the
condition itself (`TODO: Negate condition?` at line 761), not by its
negation. -/
def createPreLoopPrimDraft (m : NodeMap) (bbs : BbMap) (newName : String) :
    Except Err Primitive :=
  match assocLookup m "A" with
  | none => .error (.noNodePair "A")
  | some nameA =>
  match assocLookup m "B" with
  | none => .error (.noNodePair "B")
  | some nameB =>
  match assocLookup m "C" with
  | none => .error (.noNodePair "C")
  | some nameC =>
  match assocLookup bbs nameA with
  | none => .error (.noBasicBlock nameA)
  | some bbCond =>
  match assocLookup bbs nameB with
  | none => .error (.noBasicBlock nameB)
  | some bbBody =>
  match assocLookup bbs nameC with
  | none => .error (.noBasicBlock nameC)
  | some bbExit =>
  match getBrCond bbCond.term with
  | .error e => .error e
  | .ok (cond0, _, _) =>
  match expand bbCond cond0 with
  | .error e => .error e
  | .ok (cond, bbCond') =>
  if bbCond'.stmts.length ≠ 0 then
    .ok { name := newName
          stmts := [GoStmt.forStmt none
              (bbCond'.stmts
                ++ [GoStmt.ifStmt cond [GoStmt.branchStmt GoTok.breakTok] none]
                ++ bbBody.stmts)]
            ++ bbExit.stmts
          term := bbExit.term }
  else
    .ok { name := newName
          stmts := [GoStmt.forStmt (some cond) bbBody.stmts] ++ bbExit.stmts
          term := bbExit.term }

/-- Translation of the draft `createPostLoopPrim`
(src/unnamed/part_002:819-874): identical to the current version except that
the break is guarded by the condition itself (`TODO: Negate condition?` at
line 854), not by its negation. -/
def createPostLoopPrimDraft (m : NodeMap) (bbs : BbMap) (newName : String) :
    Except Err Primitive :=
  match assocLookup m "A" with
  | none => .error (.noNodePair "A")
  | some nameA =>
  match assocLookup m "B" with
  | none => .error (.noNodePair "B")
  | some nameB =>
  match assocLookup bbs nameA with
  | none => .error (.noBasicBlock nameA)
  | some bbBody =>
  match assocLookup bbs nameB with
  | none => .error (.noBasicBlock nameB)
  | some bbExit =>
  match getBrCond bbBody.term with
  | .error e => .error e
  | .ok (cond, _, _) =>
  .ok { name := newName
        stmts := [GoStmt.forStmt none
            (bbBody.stmts
              ++ [GoStmt.ifStmt cond [GoStmt.branchStmt GoTok.breakTok] none])]
          ++ bbExit.stmts
        term := bbExit.term }

/-- Translation of the draft `createPrim` (src/unnamed/part_002:457-474):
dispatch on the `.dot` file names of the catalog; the `if`, `if_else`,
`if_return` and `list` cases coincide textually with the current versions,
while the loop shapes use the draft (non-negating) synthesizers. -/
def createPrimDraft (subName : String) (m : NodeMap) (bbs : BbMap)
    (newName : String) : Except Err Primitive :=
  match subName with
  | "if.dot" => createIfPrim m bbs newName
  | "if_else.dot" => createIfElsePrim m bbs newName
  | "if_return.dot" => createIfPrim m bbs newName
  | "list.dot" => createListPrim m bbs newName
  | "post_loop.dot" => createPostLoopPrimDraft m bbs newName
  | "pre_loop.dot" => createPreLoopPrimDraft m bbs newName
  | _ => .error (.primNotSupported subName)

/-- The ordered primitive catalog names of the latest draft
(src/unnamed/part_002:897-900): `list.dot` comes last. -/
def subNames : List String :=
  ["if.dot", "if_else.dot", "pre_loop.dot", "post_loop.dot", "if_return.dot",
   "list.dot"]

/-- The ordered primitive catalog names of the earlier drafts
(src/unnamed/part_000:23-26 and src/unnamed/part_001:26-29): `list.dot`
comes first. -/
def subNamesEarly : List String :=
  ["list.dot", "if.dot", "if_else.dot", "pre_loop.dot", "post_loop.dot",
   "if_return.dot"]

section Restructurer

variable {Graph SubGraph : Type}

/-- Translation of `locatePrim` (src/unnamed/part_002:421-452).  The
external collaborators `iso.Search` and `merge.Merge` (package
decomp.org/x/graphs) are parameters: `search` returns an isomorphism of the
shape in the graph or nothing, `mergeF` collapses the matched nodes and
returns the fresh node name together with the rewritten graph.  The catalog
is the list of shapes paired with their names (`subs` indexed alongside
`subNames`); shapes are tried in order and the first one that matches is
taken.  On a match, the member blocks are collected and deleted and the
primitive is synthesized by the draft `createPrim`. -/
def locatePrim
    (search : Graph → SubGraph → Option NodeMap)
    (mergeF : Graph → NodeMap → SubGraph → Except Err (String × Graph)) :
    List (SubGraph × String) → Graph → BbMap →
    Except Err (Primitive × Graph × BbMap)
  | [], _, _ => .error .noControlFlowPrimitive
  | (sub, subName) :: rest, graph, bbs =>
    match search graph sub with
    | none => locatePrim search mergeF rest graph bbs
    | some m =>
      match mergeF graph m sub with
      | .error e => .error e
      | .ok (newName, graph') =>
        match collectDelete (m.map Prod.snd) [] bbs with
        | (.error e, _) => .error e
        | (.ok primBBs, bbs') =>
          match createPrimDraft subName m primBBs newName with
          | .error e => .error e
          | .ok prim => .ok (prim, graph', bbs')

/-- Translation of the draft `restructure` (src/unnamed/part_002:392-417):
while more than one block remains, a primitive is located (erroring out if
none matches) and installed under its name; the final remaining block must
have a nil terminator and yields the body.  The Go loop has no built-in
bound; the fuel argument counts loop iterations and a `none` result models
the loop still running after `fuel` iterations. -/
def restructureDraft
    (search : Graph → SubGraph → Option NodeMap)
    (mergeF : Graph → NodeMap → SubGraph → Except Err (String × Graph))
    (subs : List (SubGraph × String)) :
    Nat → Graph → BbMap → Option (Except Err (List GoStmt))
  | fuel, graph, bbs =>
    if 1 < bbs.length then
      match fuel with
      | 0 => none
      | fuel + 1 =>
        match locatePrim search mergeF subs graph bbs with
        | .error e => some (.error e)
        | .ok (prim, graph', bbs') =>
          restructureDraft search mergeF subs fuel graph'
            (insertBB bbs' prim.name prim)
    else
      match bbs with
      | [] => some (.error .noLastBasicBlock)
      | (_, bb) :: _ =>
        if bb.term ≠ Terminator.nil then
          some (.error .invalidLastTerminator)
        else
          some (.ok bb.stmts)

end Restructurer

/-- Whether a string starts with a decimal digit.  Anonymous locals (`%N`)
carry a numeric value, so their values satisfy this. -/
def startsWithDigit (s : String) : Bool :=
  match s.data with
  | [] => false
  | c :: _ => c.isDigit

/-- Whether a string starts with an underscore followed by a decimal digit.
Such names are exactly the images of anonymous locals under the rename of
`getIdent` and are reserved: named locals must not look like this. -/
def reservedLocalName (s : String) : Bool :=
  match s.data with
  | c0 :: c1 :: _ => c0 = '_' && c1.isDigit
  | _ => false

/-- Node mapping fixture shared by the witness inputs of the 3-node shapes. -/
def wM3 : NodeMap := [("A", "a"), ("B", "b"), ("C", "c")]

/-- Entry block of the `if_return` witness: branch on `%cnd` to `b`/`c`. -/
def w1A : BasicBlock := ⟨"a", [], .br ⟨.localVar, "cnd"⟩ "b" "c"⟩

/-- Return-body block of the `if_return` witness. -/
def w1B : BasicBlock := ⟨"b", [GoStmt.returnStmt []], .nil⟩

/-- Exit block of the `if_return` witness. -/
def w1C : BasicBlock := ⟨"c", [GoStmt.returnStmt [GoExpr.ident "x"]], .nil⟩

/-- Block map of the `if_return` witness. -/
def w1Bbs : BbMap := [("a", w1A), ("b", w1B), ("c", w1C)]

/-- Entry block of the `if_else` witness: branch on `%cnd`, true target `c`,
false target `b` (the swapped configuration of scenario S5). -/
def w3A : BasicBlock := ⟨"a", [], .br ⟨.localVar, "cnd"⟩ "c" "b"⟩

/-- First body block of the `if_else` witness. -/
def w3B : BasicBlock :=
  ⟨"b", [GoStmt.assignStmt [GoExpr.ident "x"] .define [GoExpr.basicLit "1"]], .nil⟩

/-- Second body block of the `if_else` witness. -/
def w3C : BasicBlock :=
  ⟨"c", [GoStmt.assignStmt [GoExpr.ident "x"] .define [GoExpr.basicLit "2"]], .nil⟩

/-- Exit block of the `if_else` witness. -/
def w3D : BasicBlock := ⟨"d", [GoStmt.returnStmt [GoExpr.ident "x"]], .nil⟩

/-- Node mapping of the `if_else` witness. -/
def w3M : NodeMap := [("A", "a"), ("B", "b"), ("C", "c"), ("D", "d")]

/-- Block map of the `if_else` witness. -/
def w3Bbs : BbMap := [("a", w3A), ("b", w3B), ("c", w3C), ("d", w3D)]

/-- Entry block of the `pre_loop` witness (scenario S3): the block computes
`t := i < 10` and branches on `%t`. -/
def w5A : BasicBlock :=
  ⟨"a",
   [GoStmt.assignStmt [GoExpr.ident "t"] .define
      [GoExpr.binaryExpr (GoExpr.ident "i") .lss (GoExpr.basicLit "10")]],
   .br ⟨.localVar, "t"⟩ "b" "c"⟩

/-- Loop-body block of the `pre_loop` witness. -/
def w5B : BasicBlock :=
  ⟨"b",
   [GoStmt.assignStmt [GoExpr.ident "i"] .define
      [GoExpr.binaryExpr (GoExpr.ident "i") .add (GoExpr.basicLit "1")]],
   .other⟩

/-- Exit block of the `pre_loop` witness. -/
def w5C : BasicBlock := ⟨"c", [GoStmt.returnStmt [GoExpr.ident "i"]], .nil⟩

/-- Block map of the `pre_loop` witness. -/
def w5Bbs : BbMap := [("a", w5A), ("b", w5B), ("c", w5C)]

/-- Entry block of the statement-carrying `pre_loop` witness: the header
keeps a live statement `x := 1` besides the condition definition. -/
def w6A : BasicBlock :=
  ⟨"a",
   [GoStmt.assignStmt [GoExpr.ident "x"] .define [GoExpr.basicLit "1"],
    GoStmt.assignStmt [GoExpr.ident "t"] .define
      [GoExpr.binaryExpr (GoExpr.ident "x") .lss (GoExpr.basicLit "10")]],
   .br ⟨.localVar, "t"⟩ "b" "c"⟩

/-- Block map of the statement-carrying `pre_loop` witness. -/
def w6Bbs : BbMap := [("a", w6A), ("b", ⟨"b", [], .other⟩), ("c", ⟨"c", [], .nil⟩)]

/-- Body block of the `post_loop` witness (scenario S4 style). -/
def w6P : BasicBlock :=
  ⟨"a",
   [GoStmt.assignStmt [GoExpr.ident "i"] .define
      [GoExpr.binaryExpr (GoExpr.ident "i") .add (GoExpr.basicLit "1")]],
   .br ⟨.localVar, "t"⟩ "a" "b"⟩

/-- Block map of the `post_loop` witness. -/
def w6PBbs : BbMap := [("a", w6P), ("b", ⟨"b", [GoStmt.returnStmt [GoExpr.ident "i"]], .nil⟩)]

/-- Identified primitive of the `restructure` error-state witness: its
subgraph name is not in the catalog, so `createPrim` fails on it. -/
def w10Hp : HPrim := ⟨"switch", [("A", "a")], "new0"⟩

/-- Block map of the `restructure` error-state witness. -/
def w10Bbs : BbMap := [("a", ⟨"a", [], .nil⟩), ("b", ⟨"b", [], .nil⟩)]

/-- C1: counterexample.  The claim requires the `if_return` primitive to hold
an if-statement whose body is a return statement derived from `term(B)` and
whose condition is negated when the branch's true-target is `C`.  The code
routes `if_return` through `createIfPrim`: at this input the true-target is
the exit node `n3` (the block matched to `C`), yet the synthesized condition
is the plain decoded condition `c` and the if body is just the lifted
statement list of `B`; the condition differs from the negation the claim
demands. -/
theorem c1_counterexample :
    createPrim "if_return" [("A", "n1"), ("B", "n2"), ("C", "n3")]
        [("n1", ⟨"n1", [], .br ⟨.localVar, "c"⟩ "n3" "n2"⟩),
         ("n2", ⟨"n2", [GoStmt.returnStmt []], .nil⟩),
         ("n3", ⟨"n3", [], .nil⟩)] "F"
      = .ok ⟨"F", [GoStmt.ifStmt (GoExpr.ident "c") [GoStmt.returnStmt []] none],
          Terminator.nil⟩
    ∧ GoExpr.ident "c" ≠ GoExpr.unaryExpr GoTok.not (GoExpr.ident "c") :=
  ⟨rfl, by decide⟩

/-- C1 (amended): for every match of the `if_return` shape, synthesis
coincides with the `if` shape: the primitive's statements are `stmts(A)`
followed by an if-statement whose condition is decoded from `term(A)`
(never negated, regardless of the branch targets) and whose body is the
lifted statement list of `B` (a return statement appears there only because
lifting already put it there), followed by `stmts(C)`; the primitive's
terminator is the terminator of `C`. -/
theorem c1_if_return_synthesis (m : NodeMap) (bbs : BbMap)
    (newName nameA nameB nameC : String) (bbA bbB bbC : BasicBlock)
    (cond : GoExpr) (tT tF : String)
    (hA : assocLookup m "A" = some nameA) (hB : assocLookup m "B" = some nameB)
    (hC : assocLookup m "C" = some nameC)
    (hbbA : assocLookup bbs nameA = some bbA)
    (hbbB : assocLookup bbs nameB = some bbB)
    (hbbC : assocLookup bbs nameC = some bbC)
    (hbr : getBrCond bbA.term = .ok (cond, tT, tF)) :
    createPrim "if_return" m bbs newName =
      .ok ⟨newName, bbA.stmts ++ [GoStmt.ifStmt cond bbB.stmts none] ++ bbC.stmts,
        bbC.term⟩ := by
  have hd : createPrim "if_return" m bbs newName = createIfPrim m bbs newName := rfl
  rw [hd]
  simp only [createIfPrim, hA, hB, hC, hbbA, hbbB, hbbC, hbr]

/-- C1 (witness): the amended synthesis theorem applied at the concrete
`if_return` witness input. -/
theorem c1_if_return_synthesis_witness :
    createPrim "if_return" wM3 w1Bbs "F" =
      .ok ⟨"F", w1A.stmts ++ [GoStmt.ifStmt (GoExpr.ident "cnd") w1B.stmts none]
            ++ w1C.stmts, w1C.term⟩ :=
  c1_if_return_synthesis wM3 w1Bbs "F" "a" "b" "c" w1A w1B w1C
    (GoExpr.ident "cnd") "b" "c" rfl rfl rfl rfl rfl rfl rfl

/-- C3: for every match of the `if_else` shape, `createIfElsePrim` decodes
`(cond, targetTrue, targetFalse)` from `term(A)`; the then branch is the
statement list of the block named `targetTrue` and the else branch that of
the block named `targetFalse` (which undoes the matcher's symmetric
assignment of `B` and `C` when they are swapped); it fails when the decoded
true target equals neither `name(B)` nor `name(C)`, and likewise for the
false target; on success the statements are `stmts(A)` followed by the
if-else statement followed by `stmts(D)` and the terminator is that of
`D`. -/
theorem c3_if_else_synthesis :
    (∀ (m : NodeMap) (bbs : BbMap) (newName nameA nameB nameC nameD : String)
       (bbA bbT bbF bbD : BasicBlock) (cond : GoExpr) (tT tF : String),
      assocLookup m "A" = some nameA → assocLookup m "B" = some nameB →
      assocLookup m "C" = some nameC → assocLookup m "D" = some nameD →
      assocLookup bbs nameA = some bbA →
      getBrCond bbA.term = .ok (cond, tT, tF) →
      (tT = nameB ∨ tT = nameC) → (tF = nameB ∨ tF = nameC) →
      assocLookup bbs tT = some bbT → assocLookup bbs tF = some bbF →
      assocLookup bbs nameD = some bbD →
      createIfElsePrim m bbs newName =
        .ok ⟨newName,
          bbA.stmts ++ [GoStmt.ifStmt cond bbT.stmts (some bbF.stmts)] ++ bbD.stmts,
          bbD.term⟩)
    ∧ (∀ (m : NodeMap) (bbs : BbMap) (newName nameA nameB nameC nameD : String)
         (bbA : BasicBlock) (cond : GoExpr) (tT tF : String),
        assocLookup m "A" = some nameA → assocLookup m "B" = some nameB →
        assocLookup m "C" = some nameC → assocLookup m "D" = some nameD →
        assocLookup bbs nameA = some bbA →
        getBrCond bbA.term = .ok (cond, tT, tF) →
        tT ≠ nameB → tT ≠ nameC →
        createIfElsePrim m bbs newName =
          .error (.invalidTargetTrue tT nameB nameC))
    ∧ (∀ (m : NodeMap) (bbs : BbMap) (newName nameA nameB nameC nameD : String)
         (bbA : BasicBlock) (cond : GoExpr) (tT tF : String),
        assocLookup m "A" = some nameA → assocLookup m "B" = some nameB →
        assocLookup m "C" = some nameC → assocLookup m "D" = some nameD →
        assocLookup bbs nameA = some bbA →
        getBrCond bbA.term = .ok (cond, tT, tF) →
        (tT = nameB ∨ tT = nameC) → tF ≠ nameB → tF ≠ nameC →
        createIfElsePrim m bbs newName =
          .error (.invalidTargetFalse tF nameB nameC)) := by
  refine ⟨?_, ?_, ?_⟩
  · intro m bbs newName nameA nameB nameC nameD bbA bbT bbF bbD cond tT tF
      hA hB hC hD hbbA hbr htT htF hbbT hbbF hbbD
    have h1 : ¬(tT ≠ nameB ∧ tT ≠ nameC) := by
      rcases htT with h | h <;> simp [h]
    have h2 : ¬(tF ≠ nameB ∧ tF ≠ nameC) := by
      rcases htF with h | h <;> simp [h]
    simp only [createIfElsePrim, hA, hB, hC, hD, hbbA, hbr, if_neg h1, if_neg h2,
      hbbT, hbbF, hbbD]
  · intro m bbs newName nameA nameB nameC nameD bbA cond tT tF
      hA hB hC hD hbbA hbr htT1 htT2
    simp only [createIfElsePrim, hA, hB, hC, hD, hbbA, hbr]
    rw [if_pos (And.intro htT1 htT2)]
  · intro m bbs newName nameA nameB nameC nameD bbA cond tT tF
      hA hB hC hD hbbA hbr htT htF1 htF2
    have h1 : ¬(tT ≠ nameB ∧ tT ≠ nameC) := by
      rcases htT with h | h <;> simp [h]
    simp only [createIfElsePrim, hA, hB, hC, hD, hbbA, hbr, if_neg h1]
    rw [if_pos (And.intro htF1 htF2)]

/-- C3 (witness): the `if_else` synthesis theorem applied at the concrete
swapped witness input (true target is the block matched to `C`), and its
failure parts applied at inputs whose decoded targets name no matched body
node. -/
theorem c3_if_else_synthesis_witness :
    createIfElsePrim w3M w3Bbs "F" =
      .ok ⟨"F", w3A.stmts ++ [GoStmt.ifStmt (GoExpr.ident "cnd") w3C.stmts
            (some w3B.stmts)] ++ w3D.stmts, w3D.term⟩
    ∧ createIfElsePrim w3M
        [("a", ⟨"a", [], .br ⟨.localVar, "cnd"⟩ "z" "b"⟩)] "F" =
        .error (.invalidTargetTrue "z" "b" "c")
    ∧ createIfElsePrim w3M
        [("a", ⟨"a", [], .br ⟨.localVar, "cnd"⟩ "b" "z"⟩)] "F" =
        .error (.invalidTargetFalse "z" "b" "c") :=
  ⟨c3_if_else_synthesis.1 w3M w3Bbs "F" "a" "b" "c" "d" w3A w3C w3B w3D
      (GoExpr.ident "cnd") "c" "b" rfl rfl rfl rfl rfl rfl (Or.inr rfl)
      (Or.inl rfl) rfl rfl rfl,
   c3_if_else_synthesis.2.1 w3M _ "F" "a" "b" "c" "d" _
      (GoExpr.ident "cnd") "z" "b" rfl rfl rfl rfl rfl rfl
      (by decide) (by decide),
   c3_if_else_synthesis.2.2 w3M _ "F" "a" "b" "c" "d" _
      (GoExpr.ident "cnd") "b" "z" rfl rfl rfl rfl rfl rfl
      (Or.inl rfl) (by decide) (by decide)⟩

/-- C4: counterexample.  The claim requires `createIfPrim` to fail whenever
the decoded true-target differs from `name(B)` or the decoded false-target
differs from `name(C)`.  At this input the true-target is `bogus`, which is
not the name `n2` of the block matched to `B`, yet synthesis succeeds: the
code discards the decoded targets without any check. -/
theorem c4_counterexample :
    getBrCond (Terminator.br ⟨.localVar, "c"⟩ "bogus" "n3") =
      .ok (GoExpr.ident "c", "bogus", "n3")
    ∧ "bogus" ≠ "n2"
    ∧ createIfPrim [("A", "n1"), ("B", "n2"), ("C", "n3")]
        [("n1", ⟨"n1", [], .br ⟨.localVar, "c"⟩ "bogus" "n3"⟩),
         ("n2", ⟨"n2", [], .nil⟩), ("n3", ⟨"n3", [], .nil⟩)] "F"
      = .ok ⟨"F", [GoStmt.ifStmt (GoExpr.ident "c") [] none], Terminator.nil⟩ :=
  ⟨rfl, by decide, rfl⟩

/-- C4 (amended): `createIfPrim` performs no validation of the decoded
branch targets.  Whenever the three node pairs and blocks are found and the
condition of `term(A)` decodes, it succeeds with `stmts(A)` followed by
`IfStmt(cond, body = stmts(B))` followed by `stmts(C)` and the terminator of
`C` — for arbitrary decoded true and false targets. -/
theorem c4_if_synthesis_unchecked (m : NodeMap) (bbs : BbMap)
    (newName nameA nameB nameC : String) (bbA bbB bbC : BasicBlock)
    (cond : GoExpr) (tT tF : String)
    (hA : assocLookup m "A" = some nameA) (hB : assocLookup m "B" = some nameB)
    (hC : assocLookup m "C" = some nameC)
    (hbbA : assocLookup bbs nameA = some bbA)
    (hbbB : assocLookup bbs nameB = some bbB)
    (hbbC : assocLookup bbs nameC = some bbC)
    (hbr : getBrCond bbA.term = .ok (cond, tT, tF)) :
    createIfPrim m bbs newName =
      .ok ⟨newName, bbA.stmts ++ [GoStmt.ifStmt cond bbB.stmts none] ++ bbC.stmts,
        bbC.term⟩ := by
  simp only [createIfPrim, hA, hB, hC, hbbA, hbbB, hbbC, hbr]

/-- C4 (witness): the unchecked `if` synthesis theorem applied at a concrete
input whose true-target (`zz`) names neither matched body node. -/
theorem c4_if_synthesis_unchecked_witness :
    createIfPrim wM3
        [("a", ⟨"a", [], .br ⟨.localVar, "cnd"⟩ "zz" "c"⟩),
         ("b", ⟨"b", [], .nil⟩), ("c", ⟨"c", [], .nil⟩)] "F" =
      .ok ⟨"F", [GoStmt.ifStmt (GoExpr.ident "cnd") [] none], Terminator.nil⟩ :=
  c4_if_synthesis_unchecked wM3
    [("a", ⟨"a", [], .br ⟨.localVar, "cnd"⟩ "zz" "c"⟩),
     ("b", ⟨"b", [], .nil⟩), ("c", ⟨"c", [], .nil⟩)]
    "F" "a" "b" "c" ⟨"a", [], .br ⟨.localVar, "cnd"⟩ "zz" "c"⟩
    ⟨"b", [], .nil⟩ ⟨"c", [], .nil⟩
    (GoExpr.ident "cnd") "zz" "c" rfl rfl rfl rfl rfl rfl rfl

/-- C5: for every match of the `pre_loop` shape, `createPreLoopPrim` decodes
the condition from `term(A)` first and only then applies expression
expansion to it (the theorem's hypotheses exhibit this order: `cond0` comes
from the original terminator and `expand` rewrites it to `cond` while
mutating the header block).  When the header statements are empty after
expansion the primitive is `for cond { stmts(B) }` followed by `stmts(C)`;
otherwise it is a condition-less for-loop holding the expanded header
statements, a negated-condition break and `stmts(B)`, followed by
`stmts(C)`; in both cases the terminator is that of `C`. -/
theorem c5_pre_loop_synthesis (m : NodeMap) (bbs : BbMap)
    (newName nameA nameB nameC : String) (bbA bbB bbC bbA' : BasicBlock)
    (cond0 cond : GoExpr) (tT tF : String)
    (hA : assocLookup m "A" = some nameA) (hB : assocLookup m "B" = some nameB)
    (hC : assocLookup m "C" = some nameC)
    (hbbA : assocLookup bbs nameA = some bbA)
    (hbbB : assocLookup bbs nameB = some bbB)
    (hbbC : assocLookup bbs nameC = some bbC)
    (hbr : getBrCond bbA.term = .ok (cond0, tT, tF))
    (hexp : expand bbA cond0 = .ok (cond, bbA')) :
    (bbA'.stmts.length = 0 →
      createPreLoopPrim m bbs newName =
        .ok ⟨newName, [GoStmt.forStmt (some cond) bbB.stmts] ++ bbC.stmts,
          bbC.term⟩)
    ∧ (bbA'.stmts.length ≠ 0 →
        createPreLoopPrim m bbs newName =
          .ok ⟨newName,
            [GoStmt.forStmt none
              (bbA'.stmts
                ++ [GoStmt.ifStmt (GoExpr.unaryExpr GoTok.not cond)
                      [GoStmt.branchStmt GoTok.breakTok] none]
                ++ bbB.stmts)]
              ++ bbC.stmts,
            bbC.term⟩) := by
  constructor
  · intro hlen
    simp only [createPreLoopPrim, hA, hB, hC, hbbA, hbbB, hbbC, hbr, hexp]
    rw [if_neg (by simp [hlen])]
  · intro hlen
    simp only [createPreLoopPrim, hA, hB, hC, hbbA, hbbB, hbbC, hbr, hexp]
    rw [if_pos hlen]

/-- C5 (witness): the `pre_loop` synthesis theorem applied at the scenario
S3 witness input, where the condition definition `t := i < 10` is folded
into the loop header by expansion and the header becomes empty. -/
theorem c5_pre_loop_synthesis_witness :
    createPreLoopPrim wM3 w5Bbs "F" =
      .ok ⟨"F",
        [GoStmt.forStmt
            (some (GoExpr.binaryExpr (GoExpr.ident "i") .lss (GoExpr.basicLit "10")))
            w5B.stmts]
          ++ w5C.stmts,
        w5C.term⟩ :=
  (c5_pre_loop_synthesis wM3 w5Bbs "F" "a" "b" "c" w5A w5B w5C ⟨"a", [], w5A.term⟩
      (GoExpr.ident "t")
      (GoExpr.binaryExpr (GoExpr.ident "i") .lss (GoExpr.basicLit "10"))
      "b" "c" rfl rfl rfl rfl rfl rfl rfl rfl).1 rfl

/-- C6: in the statement-carrying `pre_loop` variant and in the `post_loop`
synthesis the break statement inside the emitted for-loop is guarded by the
negation of the decoded condition: the if statement before the break has
condition `!cond` (`ast.UnaryExpr` with operator `token.NOT`), so the break
fires on the exit edge and never on the back edge. -/
theorem c6_break_negation :
    (∀ (m : NodeMap) (bbs : BbMap) (newName nameA nameB nameC : String)
       (bbA bbB bbC bbA' : BasicBlock) (cond0 cond : GoExpr) (tT tF : String),
      assocLookup m "A" = some nameA → assocLookup m "B" = some nameB →
      assocLookup m "C" = some nameC →
      assocLookup bbs nameA = some bbA → assocLookup bbs nameB = some bbB →
      assocLookup bbs nameC = some bbC →
      getBrCond bbA.term = .ok (cond0, tT, tF) →
      expand bbA cond0 = .ok (cond, bbA') →
      bbA'.stmts.length ≠ 0 →
      createPreLoopPrim m bbs newName =
        .ok ⟨newName,
          [GoStmt.forStmt none
            (bbA'.stmts
              ++ [GoStmt.ifStmt (GoExpr.unaryExpr GoTok.not cond)
                    [GoStmt.branchStmt GoTok.breakTok] none]
              ++ bbB.stmts)]
            ++ bbC.stmts,
          bbC.term⟩)
    ∧ (∀ (m : NodeMap) (bbs : BbMap) (newName nameA nameB : String)
         (bbA bbB : BasicBlock) (cond : GoExpr) (tT tF : String),
        assocLookup m "A" = some nameA → assocLookup m "B" = some nameB →
        assocLookup bbs nameA = some bbA → assocLookup bbs nameB = some bbB →
        getBrCond bbA.term = .ok (cond, tT, tF) →
        createPostLoopPrim m bbs newName =
          .ok ⟨newName,
            [GoStmt.forStmt none
              (bbA.stmts
                ++ [GoStmt.ifStmt (GoExpr.unaryExpr GoTok.not cond)
                      [GoStmt.branchStmt GoTok.breakTok] none])]
              ++ bbB.stmts,
            bbB.term⟩) := by
  constructor
  · intro m bbs newName nameA nameB nameC bbA bbB bbC bbA' cond0 cond tT tF
      hA hB hC hbbA hbbB hbbC hbr hexp hlen
    simp only [createPreLoopPrim, hA, hB, hC, hbbA, hbbB, hbbC, hbr, hexp]
    rw [if_pos hlen]
  · intro m bbs newName nameA nameB bbA bbB cond tT tF hA hB hbbA hbbB hbr
    simp only [createPostLoopPrim, hA, hB, hbbA, hbbB, hbr]

/-- C6 (witness): the negation theorem applied at the statement-carrying
`pre_loop` witness (header keeps `x := 1` after expansion) and at the
`post_loop` witness. -/
theorem c6_break_negation_witness :
    createPreLoopPrim wM3 w6Bbs "F" =
      .ok ⟨"F",
        [GoStmt.forStmt none
          ([GoStmt.assignStmt [GoExpr.ident "x"] .define [GoExpr.basicLit "1"]]
            ++ [GoStmt.ifStmt
                  (GoExpr.unaryExpr GoTok.not
                    (GoExpr.binaryExpr (GoExpr.ident "x") .lss (GoExpr.basicLit "10")))
                  [GoStmt.branchStmt GoTok.breakTok] none]
            ++ [])]
          ++ [],
        Terminator.nil⟩
    ∧ createPostLoopPrim [("A", "a"), ("B", "b")] w6PBbs "F" =
        .ok ⟨"F",
          [GoStmt.forStmt none
            (w6P.stmts
              ++ [GoStmt.ifStmt (GoExpr.unaryExpr GoTok.not (GoExpr.ident "t"))
                    [GoStmt.branchStmt GoTok.breakTok] none])]
            ++ [GoStmt.returnStmt [GoExpr.ident "i"]],
          Terminator.nil⟩ :=
  ⟨c6_break_negation.1 wM3 w6Bbs "F" "a" "b" "c" w6A ⟨"b", [], .other⟩
      ⟨"c", [], .nil⟩
      ⟨"a", [GoStmt.assignStmt [GoExpr.ident "x"] .define [GoExpr.basicLit "1"]],
        w6A.term⟩
      (GoExpr.ident "t")
      (GoExpr.binaryExpr (GoExpr.ident "x") .lss (GoExpr.basicLit "10"))
      "b" "c" rfl rfl rfl rfl rfl rfl rfl rfl (by decide),
   c6_break_negation.2 [("A", "a"), ("B", "b")] w6PBbs "F" "a" "b" w6P
      ⟨"b", [GoStmt.returnStmt [GoExpr.ident "i"]], .nil⟩
      (GoExpr.ident "t") "a" "b" rfl rfl rfl rfl rfl⟩

/-- C7: counterexample.  The claim fixes the catalog priority order as
`list, if, if_else, pre_loop, post_loop, if_return`, but the latest draft of
the catalog (src/unnamed/part_002:897-900, the one wired to the `locatePrim`
and `restructure` the claim cites) puts `list.dot` last, not first; only the
earlier drafts (src/unnamed/part_000, part_001) use the claimed order. -/
theorem c7_counterexample :
    subNames = ["if.dot", "if_else.dot", "pre_loop.dot", "post_loop.dot",
      "if_return.dot", "list.dot"]
    ∧ subNames ≠ ["list.dot", "if.dot", "if_else.dot", "pre_loop.dot",
        "post_loop.dot", "if_return.dot"]
    ∧ subNamesEarly = ["list.dot", "if.dot", "if_else.dot", "pre_loop.dot",
        "post_loop.dot", "if_return.dot"] :=
  ⟨rfl, by decide, rfl⟩

/-- C7 (amended): the latest draft tries the catalog in the fixed priority
order `if, if_else, pre_loop, post_loop, if_return, list`, and in every
`locatePrim` call a shape is used only if each shape before it in the
catalog has no isomorphism in the current CFG: a prefix of shapes on which
the search fails is skipped, and once a shape's search succeeds the result
does not depend on the shapes after it. -/
theorem c7_catalog_priority {Graph SubGraph : Type}
    (search : Graph → SubGraph → Option NodeMap)
    (mergeF : Graph → NodeMap → SubGraph → Except Err (String × Graph)) :
    subNames = ["if.dot", "if_else.dot", "pre_loop.dot", "post_loop.dot",
      "if_return.dot", "list.dot"]
    ∧ (∀ (xs ys : List (SubGraph × String)) (g : Graph) (bbs : BbMap),
        (∀ p ∈ xs, search g p.1 = none) →
        locatePrim search mergeF (xs ++ ys) g bbs =
          locatePrim search mergeF ys g bbs)
    ∧ (∀ (sub : SubGraph) (subName : String)
         (rest rest' : List (SubGraph × String)) (g : Graph) (bbs : BbMap)
         (mm : NodeMap),
        search g sub = some mm →
        locatePrim search mergeF ((sub, subName) :: rest) g bbs =
          locatePrim search mergeF ((sub, subName) :: rest') g bbs) := by
  refine ⟨rfl, ?_, ?_⟩
  · intro xs ys g bbs hnone
    induction xs with
    | nil => rfl
    | cons p xs ih =>
      obtain ⟨sub, subName⟩ := p
      have h0 : search g sub = none := hnone (sub, subName) (by simp)
      simp only [List.cons_append, locatePrim, h0]
      exact ih fun q hq => hnone q (by simp [hq])
  · intro sub subName rest rest' g bbs mm hm
    simp only [locatePrim, hm]

/-- C7 (witness): the priority theorem applied at a concrete two-shape
catalog in which the first shape has no match: locating a primitive over
both shapes equals locating it over the second alone. -/
theorem c7_catalog_priority_witness :
    locatePrim (fun (_ : Unit) (s : Nat) => if s = 1 then some [("A", "a")] else none)
        (fun g _ _ => .ok ("new", g)) ([(0, "x.dot")] ++ [(1, "y.dot")]) ()
        [("a", ⟨"a", [], .nil⟩)] =
      locatePrim (fun (_ : Unit) (s : Nat) => if s = 1 then some [("A", "a")] else none)
        (fun g _ _ => .ok ("new", g)) [(1, "y.dot")] ()
        [("a", ⟨"a", [], .nil⟩)] :=
  (c7_catalog_priority
      (fun (_ : Unit) (s : Nat) => if s = 1 then some [("A", "a")] else none)
      (fun g _ _ => .ok ("new", g))).2.1
    [(0, "x.dot")] [(1, "y.dot")] () [("a", ⟨"a", [], .nil⟩)]
    (by intro p hp; simp at hp; rw [hp]; rfl)

/-- C8: counterexample.  The claim requires operand decoding to succeed for
a named local value (`%foo`); `parseOperand` only accepts an integer literal
value token and fails on this named-local operand. -/
theorem c8_counterexample :
    parseOperand [⟨.typ, "i32"⟩, ⟨.localVar, "foo"⟩, ⟨.other, ""⟩] =
      .error .unsupportedTokenKind := rfl

/-- C8 (amended): operand decoding requires exactly three tokens and
succeeds exactly when the value token (index 1) is an integer literal,
returning the corresponding basic literal; every other value form —
including true/false keywords and named or anonymous locals — fails, as
does any operand with a different token count. -/
theorem c8_operand_int_only :
    (∀ (t0 t2 : Tok) (v : String),
      parseOperand [t0, ⟨.int, v⟩, t2] = .ok (GoExpr.basicLit v))
    ∧ (∀ t0 t1 t2 : Tok, t1.kind ≠ .int →
        parseOperand [t0, t1, t2] = .error .unsupportedTokenKind)
    ∧ (∀ tokens : List Tok, tokens.length ≠ 3 →
        parseOperand tokens = .error (.operandTokenCount tokens.length)) := by
  refine ⟨fun _ _ _ => rfl, ?_, ?_⟩
  · intro t0 t1 t2 h
    obtain ⟨k, v⟩ := t1
    cases k <;> first
      | rfl
      | exact absurd rfl h
  · intro tokens h
    rcases tokens with _ | ⟨a, _ | ⟨b, _ | ⟨c, _ | ⟨d, rest⟩⟩⟩⟩
    · rfl
    · rfl
    · rfl
    · exact absurd rfl h
    · rfl

/-- C8 (witness): the amended operand theorem applied at concrete operands:
an integer operand succeeds, a keyword operand fails, a one-token operand
fails on the token count. -/
theorem c8_operand_int_only_witness :
    parseOperand [⟨.typ, "i32"⟩, ⟨.int, "7"⟩, ⟨.other, ""⟩] =
      .ok (GoExpr.basicLit "7")
    ∧ parseOperand [⟨.typ, "i1"⟩, ⟨.kwTrue, "true"⟩, ⟨.other, ""⟩] =
        .error .unsupportedTokenKind
    ∧ parseOperand [⟨.typ, "i32"⟩] = .error (.operandTokenCount 1) :=
  ⟨c8_operand_int_only.1 ⟨.typ, "i32"⟩ ⟨.other, ""⟩ "7",
   c8_operand_int_only.2.1 ⟨.typ, "i1"⟩ ⟨.kwTrue, "true"⟩ ⟨.other, ""⟩ (by decide),
   c8_operand_int_only.2.2 [⟨.typ, "i32"⟩] (by decide)⟩

/-- C9: every anonymous local token `%N` is emitted by `getIdent` as exactly
`_N`, and the renaming is injective over local tokens under the stated
reservation: provided named locals never start with an underscore followed
by a digit and anonymous local values start with a digit, two distinct
local tokens never map to the same identifier. -/
theorem c9_anon_rename_injective :
    (∀ v : String, getIdent ⟨.localID, v⟩ = .ok (GoExpr.ident ("_" ++ v)))
    ∧ (∀ (t1 t2 : Tok) (e : GoExpr),
        (t1.kind = .localVar ∨ t1.kind = .localID) →
        (t2.kind = .localVar ∨ t2.kind = .localID) →
        (t1.kind = .localVar → reservedLocalName t1.val = false) →
        (t2.kind = .localVar → reservedLocalName t2.val = false) →
        (t1.kind = .localID → startsWithDigit t1.val = true) →
        (t2.kind = .localID → startsWithDigit t2.val = true) →
        getIdent t1 = .ok e → getIdent t2 = .ok e → t1 = t2) := by
  have hmix : ∀ v1 v2 : String, reservedLocalName v1 = false →
      startsWithDigit v2 = true → v1 = "_" ++ v2 → False := by
    intro v1 v2 hres hd h
    unfold startsWithDigit at hd
    split at hd
    · exact absurd hd (by simp)
    · rename_i c tail hv2
      have hdata : v1.data = '_' :: c :: tail := by
        rw [h]; simp [String.data_append, hv2]
      unfold reservedLocalName at hres
      split at hres
      · rename_i c0 c1 rest heq
        rw [hdata] at heq
        injection heq with e1 e2
        injection e2 with e2a e2b
        subst e1; subst e2a
        simp [hd] at hres
      · rename_i hne
        exact hne '_' c tail hdata
  refine ⟨fun v => rfl, ?_⟩
  intro t1 t2 e hk1 hk2 hres1 hres2 hd1 hd2 hg1 hg2
  obtain ⟨k1, v1⟩ := t1
  obtain ⟨k2, v2⟩ := t2
  simp only at hk1 hk2 hres1 hres2 hd1 hd2
  rcases hk1 with h1 | h1 <;> rcases hk2 with h2 | h2 <;> subst h1 <;> subst h2
  · have e1 : e = GoExpr.ident v1 := by
      simpa [getIdent] using hg1.symm
    have e2 : e = GoExpr.ident v2 := by
      simpa [getIdent] using hg2.symm
    rw [e1] at e2
    injection e2 with hv
    rw [hv]
  · have e1 : e = GoExpr.ident v1 := by
      simpa [getIdent] using hg1.symm
    have e2 : e = GoExpr.ident ("_" ++ v2) := by
      simpa [getIdent] using hg2.symm
    rw [e1] at e2
    injection e2 with hv
    exact absurd hv (fun hv => hmix v1 v2 (hres1 rfl) (hd2 rfl) hv)
  · have e1 : e = GoExpr.ident ("_" ++ v1) := by
      simpa [getIdent] using hg1.symm
    have e2 : e = GoExpr.ident v2 := by
      simpa [getIdent] using hg2.symm
    rw [e1] at e2
    injection e2 with hv
    exact absurd hv.symm (fun hv => hmix v2 v1 (hres2 rfl) (hd1 rfl) hv)
  · have e1 : e = GoExpr.ident ("_" ++ v1) := by
      simpa [getIdent] using hg1.symm
    have e2 : e = GoExpr.ident ("_" ++ v2) := by
      simpa [getIdent] using hg2.symm
    rw [e1] at e2
    injection e2 with hv
    have hdv := congrArg String.data hv
    simp only [String.data_append] at hdv
    have : v1.data = v2.data := by simpa using hdv
    rw [String.ext this]

/-- C9 (witness): the rename theorem applied at the concrete anonymous local
`%42` and at a concrete pair of local tokens with the reservation
hypotheses discharged. -/
theorem c9_anon_rename_injective_witness :
    getIdent ⟨.localID, "42"⟩ = .ok (GoExpr.ident "_42")
    ∧ (⟨.localVar, "foo"⟩ : Tok) = ⟨.localVar, "foo"⟩ :=
  ⟨by
      have h := c9_anon_rename_injective.1 "42"
      simpa using h,
   c9_anon_rename_injective.2 ⟨.localVar, "foo"⟩ ⟨.localVar, "foo"⟩
      (GoExpr.ident "foo") (Or.inl rfl) (Or.inl rfl)
      (fun _ => by decide) (fun _ => by decide)
      (fun h => by cases h) (fun h => by cases h) rfl rfl⟩

/-- Erasing a key removes it from lookup. -/
theorem assocLookup_eraseBB_self (bbs : BbMap) (g : String) :
    assocLookup (eraseBB bbs g) g = none := by
  induction bbs with
  | nil => rfl
  | cons p rest ih =>
    obtain ⟨k, v⟩ := p
    by_cases hk : k = g
    · simpa [eraseBB, List.filter_cons, hk] using ih
    · simpa [eraseBB, List.filter_cons, hk, assocLookup] using ih

/-- Erasing any key preserves the absence of a key. -/
theorem assocLookup_eraseBB_none (bbs : BbMap) (g n : String)
    (h : assocLookup bbs g = none) : assocLookup (eraseBB bbs n) g = none := by
  induction bbs with
  | nil => rfl
  | cons p rest ih =>
    obtain ⟨k, v⟩ := p
    simp only [assocLookup] at h
    by_cases hk : k = g
    · simp [hk] at h
    · have hr := ih (by simpa [hk] using h)
      by_cases hn : k = n
      · simpa [eraseBB, List.filter_cons, hn] using hr
      · simpa [eraseBB, List.filter_cons, hn, assocLookup, hk] using hr

/-- The member-collection loop only deletes entries: a key absent from the
input block map is absent from the output block map. -/
theorem collectDelete_snd_none :
    ∀ (names : List String) (acc bbs : BbMap) (g : String),
      assocLookup bbs g = none →
      assocLookup (collectDelete names acc bbs).2 g = none := by
  intro names
  induction names with
  | nil => intro acc bbs g h; exact h
  | cons n rest ih =>
    intro acc bbs g h
    cases hb : assocLookup bbs n with
    | none => simpa [collectDelete, hb] using h
    | some bb =>
      simp only [collectDelete, hb]
      exact ih _ _ g (assocLookup_eraseBB_none bbs g n h)

/-- When the member-collection loop succeeds, every collected name is
missing from the resulting block map. -/
theorem collectDelete_ok_member_none :
    ∀ (names : List String) (acc bbs primBBs bbs' : BbMap),
      collectDelete names acc bbs = (.ok primBBs, bbs') →
      ∀ g ∈ names, assocLookup bbs' g = none := by
  intro names
  induction names with
  | nil => intro acc bbs primBBs bbs' h g hg; simp at hg
  | cons n rest ih =>
    intro acc bbs primBBs bbs' h g hg
    cases hb : assocLookup bbs n with
    | none => simp [collectDelete, hb] at h
    | some bb =>
      simp only [collectDelete, hb] at h
      rcases List.mem_cons.mp hg with hgn | hgr
      · subst hgn
        have h2 : (collectDelete rest (insertBB acc g bb) (eraseBB bbs g)).2 = bbs' :=
          congrArg Prod.snd h
        rw [← h2]
        exact collectDelete_snd_none rest _ _ g (assocLookup_eraseBB_self bbs g)
      · exact ih _ _ _ _ h g hgr

/-- A successful lookup means the key is among the map's keys. -/
theorem assocLookup_some_mem (bbs : BbMap) (g : String) (bb : BasicBlock)
    (h : assocLookup bbs g = some bb) : g ∈ bbKeys bbs := by
  induction bbs with
  | nil => simp [assocLookup] at h
  | cons p rest ih =>
    obtain ⟨k, v⟩ := p
    simp only [assocLookup] at h
    by_cases hk : k = g
    · simp [bbKeys, hk]
    · exact List.mem_cons.mpr (Or.inr (ih (by simpa [hk] using h)))

/-- A failing lookup means the key is not among the map's keys. -/
theorem assocLookup_none_not_mem (bbs : BbMap) (g : String)
    (h : assocLookup bbs g = none) : g ∉ bbKeys bbs := by
  induction bbs with
  | nil => simp [bbKeys]
  | cons p rest ih =>
    obtain ⟨k, v⟩ := p
    simp only [assocLookup] at h
    by_cases hk : k = g
    · simp [hk] at h
    · have := ih (by simpa [hk] using h)
      simp only [bbKeys, List.map_cons, List.mem_cons]
      rintro (rfl | hmem)
      · exact hk rfl
      · exact this hmem

/-- C10: in `restructure`, the member blocks of a matched primitive are
deleted from the block map before `createPrim` runs; hence, whenever the
member collection succeeds and `createPrim` fails, `restructure` propagates
the error with the block map already missing every matched member and
containing no replacement entry under the merged node name, and — as soon as
at least one member was present — the key set of the returned map differs
from the key set the CFG nodes agreed with on entry. -/
theorem c10_restructure_error_state :
    ∀ (hp : HPrim) (rest : List HPrim) (bbs primBBs bbs' : BbMap) (e : Err),
      collectDelete (hp.nodes.map Prod.snd) [] bbs = (.ok primBBs, bbs') →
      createPrim hp.prim hp.nodes primBBs hp.node = .error e →
      restructure (hp :: rest) bbs = (.error e, bbs')
      ∧ (∀ g ∈ hp.nodes.map Prod.snd, assocLookup bbs' g = none)
      ∧ (assocLookup bbs hp.node = none → assocLookup bbs' hp.node = none)
      ∧ (∀ g ∈ hp.nodes.map Prod.snd, g ∈ bbKeys bbs → bbKeys bbs' ≠ bbKeys bbs) := by
  intro hp rest bbs primBBs bbs' e hcd hcp
  refine ⟨?_, ?_, ?_, ?_⟩
  · simp only [restructure, hcd, hcp]
  · exact collectDelete_ok_member_none _ _ _ _ _ hcd
  · intro hnone
    have h2 : (collectDelete (hp.nodes.map Prod.snd) [] bbs).2 = bbs' :=
      congrArg Prod.snd hcd
    rw [← h2]
    exact collectDelete_snd_none _ _ _ _ hnone
  · intro g hg hmem heq
    have hnone := collectDelete_ok_member_none _ _ _ _ _ hcd g hg
    have hnot := assocLookup_none_not_mem _ _ hnone
    rw [heq] at hnot
    exact hnot hmem

/-- C10 (witness): the error-state theorem applied at a concrete input: an
identified primitive whose subgraph name is outside the catalog makes
`createPrim` fail after the single member `a` has been deleted; the
returned map holds only `b` and its key set differs from the input's. -/
theorem c10_restructure_error_state_witness :
    restructure [w10Hp] w10Bbs =
      (.error (.primNotSupported "switch"), [("b", ⟨"b", [], .nil⟩)])
    ∧ bbKeys [("b", (⟨"b", [], .nil⟩ : BasicBlock))] ≠ bbKeys w10Bbs :=
  ⟨(c10_restructure_error_state w10Hp [] w10Bbs [("a", ⟨"a", [], .nil⟩)]
      [("b", ⟨"b", [], .nil⟩)] (.primNotSupported "switch") rfl rfl).1,
   (c10_restructure_error_state w10Hp [] w10Bbs [("a", ⟨"a", [], .nil⟩)]
      [("b", ⟨"b", [], .nil⟩)] (.primNotSupported "switch") rfl rfl).2.2.2
     "a" (by decide) (by decide)⟩

/-- Unfolding of `eraseBB` on a cons cell. -/
theorem eraseBB_cons (k : String) (v : BasicBlock) (rest : BbMap) (g : String) :
    eraseBB ((k, v) :: rest) g =
      if k = g then eraseBB rest g else (k, v) :: eraseBB rest g := by
  by_cases hk : k = g <;> simp [eraseBB, List.filter_cons, hk]

/-- Erasing a present key strictly shrinks the block map. -/
theorem eraseBB_length_lt (bbs : BbMap) (g : String) (bb : BasicBlock)
    (h : assocLookup bbs g = some bb) : (eraseBB bbs g).length < bbs.length := by
  induction bbs with
  | nil => simp [assocLookup] at h
  | cons p rest ih =>
    obtain ⟨k, v⟩ := p
    simp only [assocLookup] at h
    rw [eraseBB_cons]
    by_cases hk : k = g
    · rw [if_pos hk]
      have hle : (eraseBB rest g).length ≤ rest.length := List.length_filter_le _ _
      simp only [List.length_cons]
      omega
    · rw [if_neg hk]
      have hr := ih (by simpa [hk] using h)
      simp only [List.length_cons]
      omega

/-- A successful member collection shrinks the block map by at least the
number of collected names. -/
theorem collectDelete_ok_length :
    ∀ (names : List String) (acc bbs primBBs bbs' : BbMap),
      collectDelete names acc bbs = (.ok primBBs, bbs') →
      bbs'.length + names.length ≤ bbs.length := by
  intro names
  induction names with
  | nil =>
    intro acc bbs primBBs bbs' h
    simp only [collectDelete] at h
    have h2 : bbs = bbs' := congrArg Prod.snd h
    simp [← h2]
  | cons n rest ih =>
    intro acc bbs primBBs bbs' h
    cases hb : assocLookup bbs n with
    | none => simp [collectDelete, hb] at h
    | some bb =>
      simp only [collectDelete, hb] at h
      have h1 := ih _ _ _ _ h
      have h2 := eraseBB_length_lt bbs n bb hb
      simp only [List.length_cons]
      omega

/-- Installing a primitive grows the block map by at most one entry. -/
theorem insertBB_length_le (bbs : BbMap) (k : String) (bb : BasicBlock) :
    (insertBB bbs k bb).length ≤ bbs.length + 1 := by
  have := List.length_filter_le (fun p : String × BasicBlock => p.1 ≠ k) bbs
  simpa [insertBB, eraseBB] using this

section RestructurerProofs

variable {Graph SubGraph : Type}
variable (search : Graph → SubGraph → Option NodeMap)
variable (mergeF : Graph → NodeMap → SubGraph → Except Err (String × Graph))

/-- A successful `locatePrim` has found an isomorphism of some catalog
shape; provided every shape needs at least two nodes, it removes at least
two entries from the block map. -/
theorem locatePrim_ok_length
    (hsearch : ∀ (g : Graph) (sub : SubGraph) (mm : NodeMap),
      search g sub = some mm → 2 ≤ mm.length) :
    ∀ (subs : List (SubGraph × String)) (g : Graph) (bbs : BbMap)
      (prim : Primitive) (g' : Graph) (bbs' : BbMap),
      locatePrim search mergeF subs g bbs = .ok (prim, g', bbs') →
      bbs'.length + 2 ≤ bbs.length := by
  intro subs
  induction subs with
  | nil => intro g bbs prim g' bbs' h; simp [locatePrim] at h
  | cons p rest ih =>
    obtain ⟨sub, subName⟩ := p
    intro g bbs prim g' bbs' h
    cases hs : search g sub with
    | none =>
      simp only [locatePrim, hs] at h
      exact ih g bbs prim g' bbs' h
    | some mm =>
      cases hm : mergeF g mm sub with
      | error e => simp [locatePrim, hs, hm] at h
      | ok pr =>
        obtain ⟨newName, g2⟩ := pr
        cases hcd : collectDelete (mm.map Prod.snd) [] bbs with
        | mk r b2 =>
          cases r with
          | error e => simp [locatePrim, hs, hm, hcd] at h
          | ok primBBs =>
            cases hcp : createPrimDraft subName mm primBBs newName with
            | error e => simp [locatePrim, hs, hm, hcd, hcp] at h
            | ok prim2 =>
              simp only [locatePrim, hs, hm, hcd, hcp, Except.ok.injEq,
                Prod.mk.injEq] at h
              obtain ⟨-, -, hb⟩ := h
              subst hb
              have h1 := collectDelete_ok_length _ _ _ _ _ hcd
              have h2 := hsearch g sub mm hs
              simp only [List.length_map] at h1
              omega

/-- When no catalog shape has an isomorphism in the current graph,
`locatePrim` reports that no control flow primitive was located. -/
theorem locatePrim_all_none :
    ∀ (subs : List (SubGraph × String)) (g : Graph) (bbs : BbMap),
      (∀ p ∈ subs, search g p.1 = none) →
      locatePrim search mergeF subs g bbs = .error .noControlFlowPrimitive := by
  intro subs
  induction subs with
  | nil => intro g bbs h; rfl
  | cons p rest ih =>
    obtain ⟨sub, subName⟩ := p
    intro g bbs h
    have h0 : search g sub = none := h (sub, subName) (by simp)
    simp only [locatePrim, h0]
    exact ih g bbs fun q hq => h q (by simp [hq])

/-- C2: the restructure loop terminates.  Provided every isomorphism
returned by the matcher maps at least two shape nodes (each catalog shape
has at least two), every successful `locatePrim` step — deletion of the
matched members followed by installation of the single synthesized
primitive — strictly decreases the number of block-map entries, so starting
from `n` entries the loop needs at most `n − 1` iterations (with that much
fuel it never reports divergence); and whenever more than one block remains
while no catalog shape matches, the loop stops with an error instead of
looping forever. -/
theorem c2_restructure_termination
    (hsearch : ∀ (g : Graph) (sub : SubGraph) (mm : NodeMap),
      search g sub = some mm → 2 ≤ mm.length) :
    ∀ subs : List (SubGraph × String),
      (∀ (g : Graph) (bbs : BbMap) (prim : Primitive) (g' : Graph) (bbs' : BbMap),
        locatePrim search mergeF subs g bbs = .ok (prim, g', bbs') →
        (insertBB bbs' prim.name prim).length < bbs.length)
      ∧ (∀ (fuel : Nat) (g : Graph) (bbs : BbMap), bbs.length ≤ fuel + 1 →
          restructureDraft search mergeF subs fuel g bbs ≠ none)
      ∧ (∀ (fuel : Nat) (g : Graph) (bbs : BbMap), 1 < bbs.length →
          (∀ p ∈ subs, search g p.1 = none) →
          restructureDraft search mergeF subs (fuel + 1) g bbs =
            some (.error .noControlFlowPrimitive)) := by
  intro subs
  have hstep : ∀ (g : Graph) (bbs : BbMap) (prim : Primitive) (g' : Graph)
      (bbs' : BbMap),
      locatePrim search mergeF subs g bbs = .ok (prim, g', bbs') →
      (insertBB bbs' prim.name prim).length < bbs.length := by
    intro g bbs prim g' bbs' h
    have h1 := locatePrim_ok_length search mergeF hsearch subs g bbs prim g' bbs' h
    have h2 := insertBB_length_le bbs' prim.name prim
    omega
  refine ⟨hstep, ?_, ?_⟩
  · intro fuel
    induction fuel with
    | zero =>
      intro g bbs hlen
      have h1 : ¬1 < bbs.length := by omega
      simp only [restructureDraft, if_neg h1]
      cases bbs with
      | nil => simp
      | cons p rest =>
        obtain ⟨k, bb⟩ := p
        by_cases ht : bb.term ≠ Terminator.nil <;> simp [ht]
    | succ f ihf =>
      intro g bbs hlen
      by_cases h1 : 1 < bbs.length
      · simp only [restructureDraft, if_pos h1]
        cases hl : locatePrim search mergeF subs g bbs with
        | error e => simp
        | ok res =>
          obtain ⟨prim, g', bbs'⟩ := res
          have hdec := hstep g bbs prim g' bbs' hl
          exact ihf g' (insertBB bbs' prim.name prim) (by omega)
      · simp only [restructureDraft, if_neg h1]
        cases bbs with
        | nil => simp
        | cons p rest =>
          obtain ⟨k, bb⟩ := p
          by_cases ht : bb.term ≠ Terminator.nil <;> simp [ht]
  · intro fuel g bbs h1 hnone
    simp only [restructureDraft, if_pos h1,
      locatePrim_all_none search mergeF subs g bbs hnone]

end RestructurerProofs

/-- C2 (witness): the termination theorem applied at a concrete two-entry
block map with a matcher that never finds a shape: the loop reports the
missing primitive after its first iteration rather than diverging. -/
theorem c2_restructure_termination_witness :
    restructureDraft (fun (_ : Unit) (_ : Unit) => (none : Option NodeMap))
        (fun g _ _ => .ok ("new", g)) [((), "if.dot")] 1 ()
        [("a", ⟨"a", [], .nil⟩), ("b", ⟨"b", [], .nil⟩)] =
      some (.error .noControlFlowPrimitive)
    ∧ restructureDraft (fun (_ : Unit) (_ : Unit) => (none : Option NodeMap))
        (fun g _ _ => .ok ("new", g)) [((), "if.dot")] 1 ()
        [("a", ⟨"a", [], .nil⟩), ("b", ⟨"b", [], .nil⟩)] ≠ none :=
  ⟨(c2_restructure_termination (fun (_ : Unit) (_ : Unit) => (none : Option NodeMap))
      (fun g _ _ => .ok ("new", g))
      (fun _ _ mm h => by cases h) [((), "if.dot")]).2.2 0 ()
      [("a", ⟨"a", [], .nil⟩), ("b", ⟨"b", [], .nil⟩)] (by decide)
      (fun p _ => rfl),
   (c2_restructure_termination (fun (_ : Unit) (_ : Unit) => (none : Option NodeMap))
      (fun g _ _ => .ok ("new", g))
      (fun _ _ mm h => by cases h) [((), "if.dot")]).2.1 1 ()
      [("a", ⟨"a", [], .nil⟩), ("b", ⟨"b", [], .nil⟩)] (by decide)⟩

end LL2Go
